import Mathlib

/-!
Verification of the Fuzzy Content Resolution & Ephemeral Delivery Pipeline
of the tamil_movies_bot repository (src/main.py, plus the two delivery-gate
variants kept under src/.history/).

Shallow embedding conventions:
* A string is its list of Unicode code points (`Str := List Nat`).
* The Unicode character tables consulted by the source
  (`unicodedata.category`, the regex classes \w and \s, `str.lower`) are
  transcribed exactly on the ASCII plane (code points < 128); code points
  ≥ 128 are modelled as lowercase letters (general category L, word
  characters, not whitespace), which matches the tables for the letters
  that occur in real catalog titles.
* Similarity scores are naturals; the rapidfuzz scorer is an opaque
  parameter `score`, as the specification itself treats it as a black box.
* Fallible collaborator calls (Supabase, Telegram transport) are passed in
  as `Except`/`Option` values; exceptions raised by the embedded code are
  `Except` errors in the result.
-/

namespace TamilMoviesBot

/-- A string, as its list of Unicode code points. -/
abbrev Str := List Nat

/-- Code points of a Lean string literal, for concrete test inputs. -/
def strOf (s : String) : Str := s.data.map Char.toNat

/-- Major Unicode general category classes (first letter of
`unicodedata.category`). -/
inductive GenCat where
  | letter
  | number
  | punct
  | symbol
  | sep
  | other
  deriving DecidableEq

/-- `unicodedata.category(c)[0]`, transcribed exactly for the ASCII plane;
code points ≥ 128 are modelled as letters. -/
def genCatMajor (c : Nat) : GenCat :=
  if c < 32 then .other
  else if c = 32 then .sep
  else if c ≤ 35 then .punct
  else if c = 36 then .symbol
  else if c ≤ 42 then .punct
  else if c = 43 then .symbol
  else if c ≤ 47 then .punct
  else if c ≤ 57 then .number
  else if c ≤ 59 then .punct
  else if c ≤ 62 then .symbol
  else if c ≤ 64 then .punct
  else if c ≤ 90 then .letter
  else if c ≤ 93 then .punct
  else if c = 94 then .symbol
  else if c = 95 then .punct
  else if c = 96 then .symbol
  else if c ≤ 122 then .letter
  else if c = 123 then .punct
  else if c = 124 then .symbol
  else if c = 125 then .punct
  else if c = 126 then .symbol
  else if c = 127 then .other
  else .letter

/-- The regex class \w of Python 3 `re` on str, on the modelled plane:
ASCII alphanumerics and underscore; code points ≥ 128 modelled as word
characters. -/
def isWordChar (c : Nat) : Bool :=
  decide ((48 ≤ c ∧ c ≤ 57) ∨ (65 ≤ c ∧ c ≤ 90) ∨ (97 ≤ c ∧ c ≤ 122) ∨ c = 95 ∨ 128 ≤ c)

/-- The regex class \s of Python 3 `re` on str (equivalently
`str.isspace`), restricted to the ASCII plane: TAB..CR, FS..US, SPACE. -/
def isSpaceChar (c : Nat) : Bool :=
  decide ((9 ≤ c ∧ c ≤ 13) ∨ (28 ≤ c ∧ c ≤ 32))

/-- `str.lower()` per code point: ASCII A-Z map to a-z, everything else in
the modelled plane is fixed. -/
def pyLower (c : Nat) : Nat :=
  if 65 ≤ c ∧ c ≤ 90 then c + 32 else c

/-- The first filter of `clean_title`: keep `c` iff
`unicodedata.category(c)[0] not in ['S', 'C']`. -/
def notSymbolOrOther (c : Nat) : Bool :=
  !(genCatMajor c == .symbol || genCatMajor c == .other)

/-- The second filter of `clean_title`: `re.sub(r'[^\w\s\(\)]', '', s)`
keeps exactly word characters, whitespace and parentheses. -/
def keepWord (c : Nat) : Bool :=
  isWordChar c || isSpaceChar c || c == 40 || c == 41

/-- `re.sub(r'\s+', ' ', s)`: every maximal whitespace run becomes a
single space. -/
def collapseWs : Str → Str
  | [] => []
  | [c] => if isSpaceChar c then [32] else [c]
  | c :: d :: cs =>
    if isSpaceChar c then
      if isSpaceChar d then collapseWs (d :: cs)
      else 32 :: collapseWs (d :: cs)
    else c :: collapseWs (d :: cs)

/-- Drop leading whitespace (left half of `str.strip()`). -/
def lstripSp (s : Str) : Str := s.dropWhile isSpaceChar

/-- Drop trailing whitespace (right half of `str.strip()`). -/
def rstripSp (s : Str) : Str := (s.reverse.dropWhile isSpaceChar).reverse

/-- `str.strip()`. -/
def pyStrip (s : Str) : Str := rstripSp (lstripSp s)

/-- `clean_title` (src/main.py lines 70-79): lower-case, drop Symbol/Other
category characters, drop everything that is not a word character,
whitespace or a parenthesis, collapse whitespace runs, strip. -/
def clean_title (t : Str) : Str :=
  pyStrip (collapseWs (((t.map pyLower).filter notSymbolOrOther).filter keepWord))

/-- A character kept by both filters of `clean_title`, other than space. -/
def keepChar (c : Nat) : Bool :=
  notSymbolOrOther c && (isWordChar c || c == 40 || c == 41)

/-- The shape every `clean_title` output has: only kept characters and
single interior spaces, no leading/trailing space, all `pyLower`-fixed. -/
def CanonicalStr (s : Str) : Prop :=
  (∀ c ∈ s, (keepChar c = true ∧ pyLower c = c) ∨ c = 32) ∧
  List.Chain' (fun a b => a ≠ 32 ∨ b ≠ 32) s ∧
  (∀ x, s.head? = some x → x ≠ 32) ∧
  (∀ x, s.getLast? = some x → x ≠ 32)

lemma pyLower_idem (c : Nat) : pyLower (pyLower c) = pyLower c := by
  simp only [pyLower]
  split_ifs <;> omega

lemma pyLower_32 : pyLower 32 = 32 := by
  simp [pyLower]

lemma mem_map_pyLower_fixed {t : Str} {c : Nat} (h : c ∈ t.map pyLower) :
    pyLower c = c := by
  rcases List.mem_map.mp h with ⟨d, _, rfl⟩
  exact pyLower_idem d

lemma space_ne_32_cat {c : Nat} (h : isSpaceChar c = true) (h2 : c ≠ 32) :
    genCatMajor c = .other := by
  have hlt : c < 32 := by
    simp only [isSpaceChar, decide_eq_true_eq] at h
    omega
  unfold genCatMajor
  rw [if_pos hlt]

lemma keepChar_not_space {c : Nat} (h : keepChar c = true) :
    isSpaceChar c = false := by
  simp only [keepChar, Bool.and_eq_true, Bool.or_eq_true, beq_iff_eq] at h
  simp only [isSpaceChar, decide_eq_false_iff_not]
  rcases h with ⟨_, (hw | h40) | h41⟩
  · simp only [isWordChar, decide_eq_true_eq] at hw
    omega
  · omega
  · omega

lemma mem_filters_keep {l : Str} {c : Nat}
    (h : c ∈ (l.filter notSymbolOrOther).filter keepWord) :
    keepChar c = true ∨ c = 32 := by
  rcases List.mem_filter.mp h with ⟨h1, hkw⟩
  rcases List.mem_filter.mp h1 with ⟨_, hcat⟩
  by_cases h32 : c = 32
  · exact Or.inr h32
  · left
    simp only [keepWord, Bool.or_eq_true, beq_iff_eq] at hkw
    simp only [keepChar, Bool.and_eq_true, Bool.or_eq_true, beq_iff_eq]
    refine ⟨hcat, ?_⟩
    rcases hkw with ((hw | hsp) | h40) | h41
    · exact Or.inl (Or.inl hw)
    · exfalso
      have hcat' := space_ne_32_cat hsp h32
      simp [notSymbolOrOther, hcat'] at hcat
    · exact Or.inl (Or.inr h40)
    · exact Or.inr h41

lemma collapseWs_mem : ∀ (l : Str), ∀ c ∈ collapseWs l,
    (c ∈ l ∧ isSpaceChar c = false) ∨ c = 32
  | [] => by simp [collapseWs]
  | [a] => by
    intro c hc
    by_cases h : isSpaceChar a = true
    · simp only [collapseWs, if_pos h, List.mem_singleton] at hc
      exact Or.inr hc
    · simp only [collapseWs, if_neg h, List.mem_singleton] at hc
      refine Or.inl ⟨?_, ?_⟩
      · rw [hc]
        exact List.mem_singleton.mpr rfl
      · rw [hc]
        exact Bool.eq_false_iff.mpr h
  | a :: d :: cs => by
    intro c hc
    by_cases ha : isSpaceChar a = true
    · by_cases hd : isSpaceChar d = true
      · simp only [collapseWs, if_pos ha, if_pos hd] at hc
        rcases collapseWs_mem (d :: cs) c hc with ⟨hm, hs⟩ | h32
        · exact Or.inl ⟨List.mem_cons_of_mem a hm, hs⟩
        · exact Or.inr h32
      · simp only [collapseWs, if_pos ha, if_neg hd, List.mem_cons] at hc
        rcases hc with h32 | hc
        · exact Or.inr h32
        · rcases collapseWs_mem (d :: cs) c hc with ⟨hm, hs⟩ | h32
          · exact Or.inl ⟨List.mem_cons_of_mem a hm, hs⟩
          · exact Or.inr h32
    · simp only [collapseWs, if_neg ha, List.mem_cons] at hc
      rcases hc with hca | hc
      · refine Or.inl ⟨List.mem_cons.mpr (Or.inl hca), ?_⟩
        rw [hca]
        exact Bool.eq_false_iff.mpr ha
      · rcases collapseWs_mem (d :: cs) c hc with ⟨hm, hs⟩ | h32
        · exact Or.inl ⟨List.mem_cons_of_mem a hm, hs⟩
        · exact Or.inr h32

lemma collapseWs_head_nonspace : ∀ (cs : Str) (d : Nat),
    isSpaceChar d = false → (collapseWs (d :: cs)).head? = some d
  | [], d => by
    intro h
    simp [collapseWs, h]
  | e :: cs, d => by
    intro h
    simp [collapseWs, h]

lemma collapseWs_chain : ∀ (l : Str),
    List.Chain' (fun a b => ¬(isSpaceChar a = true ∧ isSpaceChar b = true)) (collapseWs l)
  | [] => by simp [collapseWs]
  | [a] => by
    by_cases h : isSpaceChar a = true <;> simp [collapseWs, h]
  | a :: d :: cs => by
    by_cases ha : isSpaceChar a = true
    · by_cases hd : isSpaceChar d = true
      · simpa only [collapseWs, if_pos ha, if_pos hd] using collapseWs_chain (d :: cs)
      · simp only [collapseWs, if_pos ha, if_neg hd]
        refine List.chain'_cons'.mpr ⟨?_, collapseWs_chain (d :: cs)⟩
        intro y hy
        rw [collapseWs_head_nonspace cs d (Bool.eq_false_iff.mpr hd)] at hy
        simp only [Option.mem_def, Option.some_inj] at hy
        subst hy
        intro hcontra
        exact hd hcontra.2
    · simp only [collapseWs, if_neg ha]
      refine List.chain'_cons'.mpr ⟨?_, collapseWs_chain (d :: cs)⟩
      intro y _
      intro hcontra
      exact ha hcontra.1

lemma collapseWs_fixed : ∀ (l : Str),
    (∀ c ∈ l, isSpaceChar c = true → c = 32) →
    List.Chain' (fun a b => a ≠ 32 ∨ b ≠ 32) l →
    collapseWs l = l
  | [], _, _ => rfl
  | [a], hmem, _ => by
    by_cases h : isSpaceChar a = true
    · have := hmem a (List.mem_singleton_self a) h
      simp [collapseWs, h, this]
    · simp [collapseWs, h]
  | a :: d :: cs, hmem, hch => by
    have hch' := List.chain'_cons.mp hch
    by_cases ha : isSpaceChar a = true
    · have ha32 := hmem a (List.mem_cons_self a _) ha
      by_cases hd : isSpaceChar d = true
      · have hd32 := hmem d (List.mem_cons_of_mem a (List.mem_cons_self d _)) hd
        exfalso
        rcases hch'.1 with h | h
        · exact h ha32
        · exact h hd32
      · simp only [collapseWs, if_pos ha, if_neg hd]
        rw [collapseWs_fixed (d :: cs) (fun c hc => hmem c (List.mem_cons_of_mem a hc)) hch'.2]
        rw [ha32]
    · simp only [collapseWs, if_neg ha]
      rw [collapseWs_fixed (d :: cs) (fun c hc => hmem c (List.mem_cons_of_mem a hc)) hch'.2]

lemma dropWhile_head_not {p : Nat → Bool} : ∀ (l : Str) (x : Nat),
    (l.dropWhile p).head? = some x → p x = false
  | [], x => by simp
  | c :: cs, x => by
    intro h
    by_cases hc : p c = true
    · rw [List.dropWhile_cons_of_pos hc] at h
      exact dropWhile_head_not cs x h
    · rw [List.dropWhile_cons_of_neg hc] at h
      simp only [List.head?_cons, Option.some_inj] at h
      subst h
      exact Bool.eq_false_iff.mpr hc

lemma map_fixed_eq_self {f : Nat → Nat} : ∀ (l : Str),
    (∀ c ∈ l, f c = c) → l.map f = l
  | [], _ => rfl
  | c :: cs, h => by
    simp only [List.map_cons, h c (List.mem_cons_self c cs),
      map_fixed_eq_self cs (fun d hd => h d (List.mem_cons_of_mem c hd))]

lemma lstripSp_suffix (s : Str) : lstripSp s <:+ s :=
  List.dropWhile_suffix _

lemma rstripSp_isPrefix (s : Str) : rstripSp s <+: s := by
  have h := List.dropWhile_suffix (l := s.reverse) isSpaceChar
  have h2 := Iff.mpr List.reverse_prefix h
  rwa [List.reverse_reverse] at h2

lemma pyStrip_sublist (s : Str) : List.Sublist (pyStrip s) s :=
  ((rstripSp_isPrefix (lstripSp s)).sublist).trans (lstripSp_suffix s).sublist

lemma pyStrip_chain {R : Nat → Nat → Prop} {s : Str} (h : List.Chain' R s) :
    List.Chain' R (pyStrip s) :=
  List.Chain'.prefix (h.suffix (lstripSp_suffix s)) (rstripSp_isPrefix (lstripSp s))

lemma head_of_isPrefix {l m : Str} {x : Nat} (hp : l <+: m) (h : l.head? = some x) :
    m.head? = some x := by
  rcases hp with ⟨t, rfl⟩
  cases l with
  | nil => simp at h
  | cons y ys =>
    simp only [List.head?_cons, Option.some_inj] at h
    simp [h]

lemma head_pyStrip {s : Str} {x : Nat} (h : (pyStrip s).head? = some x) :
    isSpaceChar x = false := by
  have h2 : (lstripSp s).head? = some x :=
    head_of_isPrefix (rstripSp_isPrefix (lstripSp s)) h
  exact dropWhile_head_not s x h2

lemma last_pyStrip {s : Str} {x : Nat} (h : (pyStrip s).getLast? = some x) :
    isSpaceChar x = false := by
  unfold pyStrip rstripSp at h
  rw [List.getLast?_reverse] at h
  exact dropWhile_head_not _ x h

lemma keepChar_keepWord {c : Nat} (h : keepChar c = true) : keepWord c = true := by
  simp only [keepChar, Bool.and_eq_true, Bool.or_eq_true, beq_iff_eq] at h
  simp only [keepWord, Bool.or_eq_true, beq_iff_eq]
  rcases h with ⟨_, (hw | h40) | h41⟩
  · exact Or.inl (Or.inl (Or.inl hw))
  · exact Or.inl (Or.inr h40)
  · exact Or.inr h41

/-- The output of `clean_title` is always in canonical form. -/
theorem clean_title_canonical (t : Str) : CanonicalStr (clean_title t) := by
  refine ⟨?_, ?_, ?_, ?_⟩
  · intro c hc
    have hc2 : c ∈ collapseWs (((t.map pyLower).filter notSymbolOrOther).filter keepWord) :=
      (pyStrip_sublist _).mem hc
    rcases collapseWs_mem _ c hc2 with ⟨hmem, _⟩ | h32
    · rcases mem_filters_keep hmem with hkeep | h32
      · refine Or.inl ⟨hkeep, ?_⟩
        have hmap : c ∈ t.map pyLower :=
          ((List.filter_sublist _).trans (List.filter_sublist _)).mem hmem
        exact mem_map_pyLower_fixed hmap
      · exact Or.inr h32
    · exact Or.inr h32
  · have hch := collapseWs_chain (((t.map pyLower).filter notSymbolOrOther).filter keepWord)
    have himp : ∀ a b : Nat, ¬(isSpaceChar a = true ∧ isSpaceChar b = true) →
        a ≠ 32 ∨ b ≠ 32 := by
      intro a b hab
      by_cases ha : a = 32
      · right
        intro hb
        exact hab ⟨by rw [ha]; decide, by rw [hb]; decide⟩
      · exact Or.inl ha
    exact pyStrip_chain (hch.imp himp)
  · intro x hx
    have := head_pyStrip hx
    intro h32
    rw [h32] at this
    simp [isSpaceChar] at this
  · intro x hx
    have := last_pyStrip hx
    intro h32
    rw [h32] at this
    simp [isSpaceChar] at this

lemma lstrip_eq_self {s : Str}
    (h : ∀ x, s.head? = some x → isSpaceChar x = false) : lstripSp s = s := by
  cases s with
  | nil => rfl
  | cons x xs =>
    unfold lstripSp
    rw [List.dropWhile_cons_of_neg]
    simp [h x rfl]

lemma rstrip_eq_self {s : Str}
    (h : ∀ x, s.getLast? = some x → isSpaceChar x = false) : rstripSp s = s := by
  unfold rstripSp
  have h2 : s.reverse.dropWhile isSpaceChar = s.reverse := by
    cases hrev : s.reverse with
    | nil => rfl
    | cons y ys =>
      rw [List.dropWhile_cons_of_neg]
      have hy : s.getLast? = some y := by
        rw [← List.head?_reverse, hrev, List.head?_cons]
      simp [h y hy]
  rw [h2, List.reverse_reverse]

/-- Canonical strings are fixed points of `clean_title`. -/
theorem canonical_fixed {s : Str} (h : CanonicalStr s) : clean_title s = s := by
  obtain ⟨hmem, hch, hhead, hlast⟩ := h
  have hspace32 : ∀ c ∈ s, isSpaceChar c = true → c = 32 := by
    intro c hc hsp
    rcases hmem c hc with ⟨hkeep, _⟩ | h32
    · rw [keepChar_not_space hkeep] at hsp
      cases hsp
    · exact h32
  unfold clean_title
  have hmap : s.map pyLower = s := by
    apply map_fixed_eq_self
    intro c hc
    rcases hmem c hc with ⟨_, hfix⟩ | h32
    · exact hfix
    · rw [h32]
      exact pyLower_32
  rw [hmap]
  have hf1 : s.filter notSymbolOrOther = s := by
    apply List.filter_eq_self.mpr
    intro c hc
    rcases hmem c hc with ⟨hkeep, _⟩ | h32
    · simp only [keepChar, Bool.and_eq_true] at hkeep
      exact hkeep.1
    · rw [h32]
      decide
  rw [hf1]
  have hf2 : s.filter keepWord = s := by
    apply List.filter_eq_self.mpr
    intro c hc
    rcases hmem c hc with ⟨hkeep, _⟩ | h32
    · exact keepChar_keepWord hkeep
    · rw [h32]
      decide
  rw [hf2]
  rw [collapseWs_fixed s hspace32 hch]
  have hl : lstripSp s = s := by
    apply lstrip_eq_self
    intro x hx
    have hxmem : x ∈ s := by
      cases s with
      | nil => simp at hx
      | cons y ys =>
        simp only [List.head?_cons, Option.some_inj] at hx
        rw [← hx]
        exact List.mem_cons_self y ys
    rcases hmem x hxmem with ⟨hkeep, _⟩ | h32
    · exact keepChar_not_space hkeep
    · exact absurd h32 (hhead x hx)
  have hr : rstripSp s = s := by
    apply rstrip_eq_self
    intro x hx
    have hxmem : x ∈ s := by
      have : x ∈ s.reverse.head? := by
        rw [List.head?_reverse]
        exact hx
      have h2 := List.mem_of_mem_head? this
      exact List.mem_reverse.mp h2
    rcases hmem x hxmem with ⟨hkeep, _⟩ | h32
    · exact keepChar_not_space hkeep
    · exact absurd h32 (hlast x hx)
  unfold pyStrip
  rw [hl, hr]

/-- C3: title normalization is idempotent — for every input string `x`,
`clean_title (clean_title x) = clean_title x` (src/main.py lines 70-79). -/
theorem clean_title_idempotent (x : Str) :
    clean_title (clean_title x) = clean_title x :=
  canonical_fixed (clean_title_canonical x)

/-- C4: `clean_title` is the pipeline lower-case → drop Symbol/Other
category characters → keep only word characters, whitespace and
parentheses → collapse whitespace runs → trim, and consequently every
character of the output is a word character, a space, or a parenthesis —
in particular the pipe delimiter 124 never occurs. The function is a pure
function of its input (determinism is immediate from the embedding). -/
theorem clean_title_chars (t : Str) :
    clean_title t =
      pyStrip (collapseWs (((t.map pyLower).filter notSymbolOrOther).filter keepWord)) ∧
    ∀ c ∈ clean_title t,
      (isWordChar c = true ∨ c = 32 ∨ c = 40 ∨ c = 41) ∧ c ≠ 124 := by
  refine ⟨rfl, ?_⟩
  intro c hc
  rcases (clean_title_canonical t).1 c hc with ⟨hkeep, _⟩ | h32
  · have hk := hkeep
    simp only [keepChar, Bool.and_eq_true, Bool.or_eq_true, beq_iff_eq] at hk
    constructor
    · rcases hk with ⟨_, (hw | h40) | h41⟩
      · exact Or.inl hw
      · exact Or.inr (Or.inr (Or.inl h40))
      · exact Or.inr (Or.inr (Or.inr h41))
    · intro h124
      rw [h124] at hkeep
      simp [keepChar, notSymbolOrOther, genCatMajor] at hkeep
  · rw [h32]
    refine ⟨Or.inr (Or.inl rfl), by omega⟩

/-- Witness for C4 at a concrete input: the normalized form of
"Amaran (2024)!" keeps the letter a (97), which is a word character and
not the pipe. -/
theorem clean_title_chars_witness :
    (isWordChar 97 = true ∨ 97 = 32 ∨ 97 = 40 ∨ 97 = 41) ∧ 97 ≠ 124 :=
  (clean_title_chars (strOf "Amaran (2024)!")).2 97 (by decide)

/-- The urlsafe base64 alphabet (`base64.urlsafe_b64encode`): sextet to
ASCII code, with `-` and `_` in place of `+` and `/`. -/
def b64Char (s : Nat) : Nat :=
  if s < 26 then 65 + s
  else if s < 52 then 71 + s
  else if s < 62 then s - 4
  else if s = 62 then 45
  else 95

/-- Inverse of the urlsafe base64 alphabet (`base64.urlsafe_b64decode`). -/
def b64Val (c : Nat) : Option Nat :=
  if 65 ≤ c ∧ c ≤ 90 then some (c - 65)
  else if 97 ≤ c ∧ c ≤ 122 then some (c - 71)
  else if 48 ≤ c ∧ c ≤ 57 then some (c + 4)
  else if c = 45 then some 62
  else if c = 95 then some 63
  else none

/-- `base64.urlsafe_b64encode`, on byte lists: groups of three bytes become
four alphabet characters, with `=` (61) padding. -/
def b64Encode : List Nat → List Nat
  | [] => []
  | [a] => [b64Char (a / 4), b64Char (a % 4 * 16), 61, 61]
  | [a, b] => [b64Char (a / 4), b64Char (a % 4 * 16 + b / 16), b64Char (b % 16 * 4), 61]
  | a :: b :: c :: rest =>
    b64Char (a / 4) :: b64Char (a % 4 * 16 + b / 16) ::
      b64Char (b % 16 * 4 + c / 64) :: b64Char (c % 64) :: b64Encode rest

/-- `base64.urlsafe_b64decode` on well-formed input: four characters at a
time, with `=` padding allowed only at the very end; malformed input gives
`none` (the source's `try` block turns this into an error reply). -/
def b64Decode : List Nat → Option (List Nat)
  | [] => some []
  | c0 :: c1 :: c2 :: c3 :: rest =>
    (b64Val c0).bind (fun s0 =>
      (b64Val c1).bind (fun s1 =>
        if c2 = 61 ∧ c3 = 61 ∧ rest = [] then
          some [s0 * 4 + s1 / 16]
        else if c3 = 61 ∧ rest = [] then
          (b64Val c2).map (fun s2 => [s0 * 4 + s1 / 16, s1 % 16 * 16 + s2 / 4])
        else
          (b64Val c2).bind (fun s2 =>
            (b64Val c3).bind (fun s3 =>
              (b64Decode rest).map
                (fun ds => (s0 * 4 + s1 / 16) :: (s1 % 16 * 16 + s2 / 4) ::
                  (s2 % 4 * 64 + s3) :: ds)))))
  | _ => none

lemma b64Val_b64Char : ∀ s, s < 64 → b64Val (b64Char s) = some s := by decide

lemma b64Char_ne_61 : ∀ s, s < 64 → b64Char s ≠ 61 := by decide

lemma b64_roundtrip_aux : ∀ (n : Nat) (bs : List Nat), bs.length ≤ n →
    (∀ b ∈ bs, b < 256) → b64Decode (b64Encode bs) = some bs := by
  intro n
  induction n with
  | zero =>
    intro bs hlen _
    have hnil : bs = [] := List.length_eq_zero.mp (Nat.le_zero.mp hlen)
    rw [hnil]
    rfl
  | succ n ih =>
    intro bs hlen hb
    match bs with
    | [] => rfl
    | [a] =>
      have ha : a < 256 := hb a (by simp)
      simp only [b64Encode, b64Decode]
      rw [b64Val_b64Char (a / 4) (by omega), b64Val_b64Char (a % 4 * 16) (by omega)]
      simp only [Option.some_bind]
      rw [if_pos (by simp)]
      have h1 : a / 4 * 4 + a % 4 * 16 / 16 = a := by omega
      rw [h1]
    | [a, b] =>
      have ha : a < 256 := hb a (by simp)
      have hbb : b < 256 := hb b (by simp)
      simp only [b64Encode, b64Decode]
      rw [b64Val_b64Char (a / 4) (by omega),
        b64Val_b64Char (a % 4 * 16 + b / 16) (by omega)]
      simp only [Option.some_bind]
      rw [if_neg (fun h => b64Char_ne_61 (b % 16 * 4) (by omega) h.1)]
      rw [if_pos (by simp)]
      rw [b64Val_b64Char (b % 16 * 4) (by omega)]
      simp only [Option.map_some']
      have h1 : a / 4 * 4 + (a % 4 * 16 + b / 16) / 16 = a := by omega
      have h2 : (a % 4 * 16 + b / 16) % 16 * 16 + b % 16 * 4 / 4 = b := by omega
      rw [h1, h2]
    | a :: b :: c :: rest =>
      have ha : a < 256 := hb a (by simp)
      have hbb : b < 256 := hb b (by simp)
      have hc : c < 256 := hb c (by simp)
      simp only [b64Encode, b64Decode]
      rw [b64Val_b64Char (a / 4) (by omega),
        b64Val_b64Char (a % 4 * 16 + b / 16) (by omega)]
      simp only [Option.some_bind]
      rw [if_neg (fun h => b64Char_ne_61 (b % 16 * 4 + c / 64) (by omega) h.1)]
      rw [if_neg (fun h => b64Char_ne_61 (c % 64) (by omega) h.1)]
      rw [b64Val_b64Char (b % 16 * 4 + c / 64) (by omega),
        b64Val_b64Char (c % 64) (by omega)]
      simp only [Option.some_bind]
      have hlen2 : rest.length ≤ n := by
        simp only [List.length_cons] at hlen
        omega
      rw [ih rest hlen2 (fun x hx => hb x (by simp [hx]))]
      simp only [Option.map_some']
      have h1 : a / 4 * 4 + (a % 4 * 16 + b / 16) / 16 = a := by omega
      have h2 : (a % 4 * 16 + b / 16) % 16 * 16 + (b % 16 * 4 + c / 64) / 4 = b := by omega
      have h3 : (b % 16 * 4 + c / 64) % 4 * 64 + c % 64 = c := by omega
      rw [h1, h2, h3]

/-- Round trip of the modelled `base64.urlsafe_b64decode` after
`base64.urlsafe_b64encode`, on byte lists. -/
theorem b64_roundtrip (bs : List Nat) (hb : ∀ b ∈ bs, b < 256) :
    b64Decode (b64Encode bs) = some bs :=
  b64_roundtrip_aux bs.length bs le_rfl hb

/-- A Unicode scalar value, i.e. a code point a Python `str` can encode to
UTF-8 (no lone surrogates, below 0x110000). -/
def isScalar (n : Nat) : Prop := n < 55296 ∨ (57344 ≤ n ∧ n < 1114112)

instance (n : Nat) : Decidable (isScalar n) := by
  unfold isScalar
  infer_instance

/-- `str.encode()` of one code point: standard UTF-8. -/
def utf8EncodeChar (n : Nat) : List Nat :=
  if n < 128 then [n]
  else if n < 2048 then [192 + n / 64, 128 + n % 64]
  else if n < 65536 then [224 + n / 4096, 128 + n / 64 % 64, 128 + n % 64]
  else [240 + n / 262144, 128 + n / 4096 % 64, 128 + n / 64 % 64, 128 + n % 64]

/-- `str.encode()` of a string. -/
def utf8Encode (s : Str) : List Nat := (s.map utf8EncodeChar).flatten

/-- `bytes.decode()`: strict UTF-8 decoding, as a byte-at-a-time state
machine. The state is `none` when a leader byte is expected and
`some (acc, k, lo)` while `k` continuation bytes are still owed, with
accumulated value `acc` and overlong threshold `lo`. Stray continuation
bytes, truncated sequences, overlong forms, surrogates and values above
0x10FFFF give `none`, as CPython raises `UnicodeDecodeError`. -/
def utf8DecodeAux : Option (Nat × Nat × Nat) → List Nat → Option Str
  | none, [] => some []
  | some _, [] => none
  | none, b :: bs =>
    if b < 128 then (utf8DecodeAux none bs).map (fun t => b :: t)
    else if b < 192 then none
    else if b < 224 then utf8DecodeAux (some (b - 192, 1, 128)) bs
    else if b < 240 then utf8DecodeAux (some (b - 224, 2, 2048)) bs
    else if b < 245 then utf8DecodeAux (some (b - 240, 3, 65536)) bs
    else none
  | some (acc, k, lo), b :: bs =>
    if 128 ≤ b ∧ b < 192 then
      if k = 1 then
        if lo ≤ acc * 64 + (b - 128) ∧ acc * 64 + (b - 128) < 1114112 ∧
            ¬(55296 ≤ acc * 64 + (b - 128) ∧ acc * 64 + (b - 128) < 57344) then
          (utf8DecodeAux none bs).map (fun t => (acc * 64 + (b - 128)) :: t)
        else none
      else utf8DecodeAux (some (acc * 64 + (b - 128), k - 1, lo)) bs
    else none

/-- `bytes.decode()` on a whole byte list. -/
def utf8Decode (bytes : List Nat) : Option Str := utf8DecodeAux none bytes

lemma utf8DecodeAux_ascii {b : Nat} (bs : List Nat) (h : b < 128) :
    utf8DecodeAux none (b :: bs) = (utf8DecodeAux none bs).map (fun t => b :: t) := by
  simp only [utf8DecodeAux]
  rw [if_pos h]

lemma utf8DecodeAux_leader2 {b : Nat} (bs : List Nat) (h1 : 192 ≤ b) (h2 : b < 224) :
    utf8DecodeAux none (b :: bs) = utf8DecodeAux (some (b - 192, 1, 128)) bs := by
  simp only [utf8DecodeAux]
  rw [if_neg (by omega), if_neg (by omega), if_pos h2]

lemma utf8DecodeAux_leader3 {b : Nat} (bs : List Nat) (h1 : 224 ≤ b) (h2 : b < 240) :
    utf8DecodeAux none (b :: bs) = utf8DecodeAux (some (b - 224, 2, 2048)) bs := by
  simp only [utf8DecodeAux]
  rw [if_neg (by omega), if_neg (by omega), if_neg (by omega), if_pos h2]

lemma utf8DecodeAux_leader4 {b : Nat} (bs : List Nat) (h1 : 240 ≤ b) (h2 : b < 245) :
    utf8DecodeAux none (b :: bs) = utf8DecodeAux (some (b - 240, 3, 65536)) bs := by
  simp only [utf8DecodeAux]
  rw [if_neg (by omega), if_neg (by omega), if_neg (by omega), if_neg (by omega), if_pos h2]

lemma utf8DecodeAux_cont {acc k lo b : Nat} (bs : List Nat)
    (hb : 128 ≤ b ∧ b < 192) (hk : k ≠ 1) :
    utf8DecodeAux (some (acc, k, lo)) (b :: bs) =
      utf8DecodeAux (some (acc * 64 + (b - 128), k - 1, lo)) bs := by
  simp only [utf8DecodeAux]
  rw [if_pos hb, if_neg hk]

lemma utf8DecodeAux_fin {acc lo b : Nat} (bs : List Nat)
    (hb : 128 ≤ b ∧ b < 192)
    (hv : lo ≤ acc * 64 + (b - 128) ∧ acc * 64 + (b - 128) < 1114112 ∧
      ¬(55296 ≤ acc * 64 + (b - 128) ∧ acc * 64 + (b - 128) < 57344)) :
    utf8DecodeAux (some (acc, 1, lo)) (b :: bs) =
      (utf8DecodeAux none bs).map (fun t => (acc * 64 + (b - 128)) :: t) := by
  simp only [utf8DecodeAux]
  rw [if_pos hb]
  simp only [if_true]
  rw [if_pos hv]

lemma utf8_prepend (c : Nat) (hc : isScalar c) (bs : List Nat) :
    utf8Decode (utf8EncodeChar c ++ bs) = (utf8Decode bs).map (fun t => c :: t) := by
  have hc4 : c < 1114112 := by
    rcases hc with h | h <;> omega
  have hsurr : ¬(55296 ≤ c ∧ c < 57344) := by
    rcases hc with h | h <;> omega
  unfold utf8Decode
  by_cases h1 : c < 128
  · rw [utf8EncodeChar, if_pos h1]
    simp only [List.cons_append, List.nil_append]
    exact utf8DecodeAux_ascii bs h1
  · by_cases h2 : c < 2048
    · rw [utf8EncodeChar, if_neg h1, if_pos h2]
      simp only [List.cons_append, List.nil_append]
      rw [utf8DecodeAux_leader2 _ (by omega) (by omega)]
      rw [utf8DecodeAux_fin _ (by omega) (by refine ⟨by omega, by omega, ?_⟩; omega)]
      have he : (192 + c / 64 - 192) * 64 + (128 + c % 64 - 128) = c := by omega
      rw [he]
    · by_cases h3 : c < 65536
      · rw [utf8EncodeChar, if_neg h1, if_neg h2, if_pos h3]
        simp only [List.cons_append, List.nil_append]
        rw [utf8DecodeAux_leader3 _ (by omega) (by omega)]
        rw [utf8DecodeAux_cont _ (by omega) (by omega)]
        rw [utf8DecodeAux_fin _ (by omega) ?hv]
        case hv =>
          have he : ((224 + c / 4096 - 224) * 64 + (128 + c / 64 % 64 - 128)) * 64 +
              (128 + c % 64 - 128) = c := by omega
          rw [he]
          exact ⟨by omega, hc4, hsurr⟩
        have he : ((224 + c / 4096 - 224) * 64 + (128 + c / 64 % 64 - 128)) * 64 +
            (128 + c % 64 - 128) = c := by omega
        rw [he]
      · rw [utf8EncodeChar, if_neg h1, if_neg h2, if_neg h3]
        simp only [List.cons_append, List.nil_append]
        rw [utf8DecodeAux_leader4 _ (by omega) (by omega)]
        rw [utf8DecodeAux_cont _ (by omega) (by omega)]
        rw [utf8DecodeAux_cont _ (by omega) (by omega)]
        rw [utf8DecodeAux_fin _ (by omega) ?hv]
        case hv =>
          have he : (((240 + c / 262144 - 240) * 64 + (128 + c / 4096 % 64 - 128)) * 64 +
              (128 + c / 64 % 64 - 128)) * 64 + (128 + c % 64 - 128) = c := by omega
          rw [he]
          exact ⟨by omega, hc4, hsurr⟩
        have he : (((240 + c / 262144 - 240) * 64 + (128 + c / 4096 % 64 - 128)) * 64 +
            (128 + c / 64 % 64 - 128)) * 64 + (128 + c % 64 - 128) = c := by omega
        rw [he]

/-- Round trip of the modelled `bytes.decode()` after `str.encode()` for
strings of scalar values. -/
theorem utf8_roundtrip : ∀ (s : Str), (∀ c ∈ s, isScalar c) →
    utf8Decode (utf8Encode s) = some s
  | [], _ => rfl
  | c :: s, h => by
    have hc : isScalar c := h c (List.mem_cons_self c s)
    have hs : ∀ d ∈ s, isScalar d := fun d hd => h d (List.mem_cons_of_mem c hd)
    simp only [utf8Encode, List.map_cons, List.flatten_cons]
    rw [utf8_prepend c hc]
    have := utf8_roundtrip s hs
    simp only [utf8Encode] at this
    rw [this]
    rfl

lemma utf8EncodeChar_lt_256 {n : Nat} (h : isScalar n) :
    ∀ b ∈ utf8EncodeChar n, b < 256 := by
  have hn : n < 1114112 := by
    rcases h with h | h <;> omega
  intro b hb
  unfold utf8EncodeChar at hb
  split_ifs at hb <;>
    simp only [List.mem_cons, List.not_mem_nil, or_false] at hb <;>
    omega

lemma utf8Encode_lt_256 {s : Str} (h : ∀ c ∈ s, isScalar c) :
    ∀ b ∈ utf8Encode s, b < 256 := by
  intro b hb
  unfold utf8Encode at hb
  rcases List.mem_flatten.mp hb with ⟨l, hl, hbl⟩
  rcases List.mem_map.mp hl with ⟨c, hcs, rfl⟩
  exact utf8EncodeChar_lt_256 (h c hcs) b hbl

/-- `decoded_payload.split("|", 1)` guarded by `if "|" in decoded_payload`
(src/main.py lines 328-329): split at the first pipe only. -/
def splitOncePipe (s : Str) : Option (Str × Str) :=
  if 124 ∈ s then
    some (s.takeWhile (fun c => c != 124), (s.dropWhile (fun c => c != 124)).tail)
  else none

/-- Token construction of `send_movie_poster` (src/main.py lines 188-190):
`base64.urlsafe_b64encode(f"{movie_name_key}|{res}".encode())`. -/
def encodeHandoff (movie_name_key res : Str) : List Nat :=
  b64Encode (utf8Encode (movie_name_key ++ 124 :: res))

/-- Token interpretation of `start` (src/main.py lines 324-329):
`base64.urlsafe_b64decode(token).decode()`, then bounded split on the
first pipe; any decoding failure is the handler's `except` path. -/
def decodeHandoff (payload : List Nat) : Option (Str × Str) :=
  match b64Decode payload with
  | none => none
  | some bytes =>
    match utf8Decode bytes with
    | none => none
    | some decoded => splitOncePipe decoded

lemma splitOnce_append {k v : Str} (hk : 124 ∉ k) :
    splitOncePipe (k ++ 124 :: v) = some (k, v) := by
  unfold splitOncePipe
  rw [if_pos (List.mem_append.mpr (Or.inr (List.mem_cons_self 124 v)))]
  have htake : ∀ (k' : Str), 124 ∉ k' → (k' ++ 124 :: v).takeWhile (fun c => c != 124) = k' := by
    intro k' hk'
    induction k' with
    | nil => simp [List.takeWhile]
    | cons x xs ihx =>
      have hx : x ≠ 124 := fun h => hk' (h ▸ List.mem_cons_self x xs)
      simp only [List.cons_append, List.takeWhile_cons]
      rw [if_pos (by simp [hx])]
      rw [ihx (fun h => hk' (List.mem_cons_of_mem x h))]
  have hdrop : ∀ (k' : Str), 124 ∉ k' → (k' ++ 124 :: v).dropWhile (fun c => c != 124) = 124 :: v := by
    intro k' hk'
    induction k' with
    | nil => simp [List.dropWhile]
    | cons x xs ihx =>
      have hx : x ≠ 124 := fun h => hk' (h ▸ List.mem_cons_self x xs)
      simp only [List.cons_append, List.dropWhile_cons]
      rw [if_pos (by simp [hx])]
      rw [ihx (fun h => hk' (List.mem_cons_of_mem x h))]
  rw [htake k hk, hdrop k hk]
  rfl

lemma clean_title_scalar {t : Str} (ht : ∀ c ∈ t, isScalar c) :
    ∀ c ∈ clean_title t, isScalar c := by
  intro c hc
  have hc2 : c ∈ collapseWs (((t.map pyLower).filter notSymbolOrOther).filter keepWord) :=
    (pyStrip_sublist _).mem hc
  rcases collapseWs_mem _ c hc2 with ⟨hmem, _⟩ | h32
  · have hmap : c ∈ t.map pyLower :=
      ((List.filter_sublist _).trans (List.filter_sublist _)).mem hmem
    rcases List.mem_map.mp hmap with ⟨d, hd, rfl⟩
    have := ht d hd
    unfold isScalar at *
    unfold pyLower
    split_ifs <;> omega
  · rw [h32]
    unfold isScalar
    omega

lemma clean_title_no_pipe (t : Str) : 124 ∉ clean_title t := by
  intro h
  exact ((clean_title_chars t).2 124 h).2 rfl

/-- C1: handoff round-trip — for every catalog key (a `clean_title` output)
and every variant label, base64-urlsafe decoding of the encoded
pipe-joined pair followed by a bounded split on the first pipe recovers
exactly the pair (src/main.py lines 188-196 and 321-330). The
hypotheses say the raw title and the label consist of Unicode scalar
values, which every Python `str` does. -/
theorem handoff_roundtrip (t v : Str) (ht : ∀ c ∈ t, isScalar c)
    (hv : ∀ c ∈ v, isScalar c) :
    decodeHandoff (encodeHandoff (clean_title t) v) = some (clean_title t, v) := by
  have hall : ∀ c ∈ clean_title t ++ 124 :: v, isScalar c := by
    intro c hc
    rcases List.mem_append.mp hc with h | h
    · exact clean_title_scalar ht c h
    · rcases List.mem_cons.mp h with h124 | hcv
      · rw [h124]
        unfold isScalar
        omega
      · exact hv c hcv
  unfold decodeHandoff encodeHandoff
  rw [b64_roundtrip _ (utf8Encode_lt_256 hall)]
  simp only []
  rw [utf8_roundtrip _ hall]
  simp only []
  exact splitOnce_append (clean_title_no_pipe t)

/-- Witness for C1 at the concrete catalog key "amaran (2024)" (with
parentheses, digits and a space) and variant label "480p". -/
theorem handoff_roundtrip_witness :
    decodeHandoff (encodeHandoff (clean_title (strOf "Amaran (2024)")) (strOf "480p")) =
      some (clean_title (strOf "Amaran (2024)"), strOf "480p") :=
  handoff_roundtrip (strOf "Amaran (2024)") (strOf "480p") (by decide) (by decide)

/-- A transient match candidate: a catalog key with its similarity score.
rapidfuzz scores are floats in [0,100]; they are modelled as naturals,
which preserves every threshold comparison the source makes. -/
abbrev MatchCandidate := Str × Nat

/-- Stable descending insertion: a candidate is placed before every
already-placed candidate of equal score, so ties keep the catalog
snapshot's insertion order. -/
def insertDesc (p : MatchCandidate) : List MatchCandidate → List MatchCandidate
  | [] => [p]
  | q :: qs => if p.2 < q.2 then q :: insertDesc p qs else p :: q :: qs

/-- Stable sort by descending score. -/
def sortDesc : List MatchCandidate → List MatchCandidate
  | [] => []
  | p :: ps => insertDesc p (sortDesc ps)

/-- `rapidfuzz.process.extract(query, choices, score_cutoff=cutoff)`:
the scored choices at or above the cutoff, by descending score (ties in
snapshot order), truncated to `limit` — the library's default limit is 5
and the source never overrides it on the cutoff-80 call. -/
def extract (score : Str → Str → Nat) (query : Str) (choices : List Str)
    (limit cutoff : Nat) : List MatchCandidate :=
  (sortDesc ((choices.map (fun c => (c, score query c))).filter
    (fun p => decide (cutoff ≤ p.2)))).take limit

/-- The catalog keys that clear a cutoff against a query, in snapshot
order. -/
def clearedKeys (score : Str → Str → Nat) (query : Str) (titles : List Str)
    (cutoff : Nat) : List Str :=
  titles.filter (fun m => decide (cutoff ≤ score query m))

/-- `cleaned_search_query` of `send_movie`:
`clean_title(update.message.text.strip())`. -/
def searchQuery (text : Str) : Str := clean_title (pyStrip text)

/-- The user-visible outcome of `send_movie`'s matching logic. -/
inductive MatchOutcome where
  | dbEmpty
  | noMatch
  | suggestions (cands : List MatchCandidate)
  | confident (key : Str)
  | ambiguous (cands : List MatchCandidate)
  deriving DecidableEq

/-- `send_movie` (src/main.py lines 465-506) as a function of the scorer,
the catalog key list of the reloaded snapshot, and the message text:
empty catalog replies that the database is empty; otherwise
`good_matches = process.extract(q, titles, score_cutoff=80)`; if empty, a
broader `process.extract(q, titles, limit=5, score_cutoff=60)` pass gives
suggestions or the not-found message; a single good match scoring ≥ 95 is
sent directly; anything else gives the suggestion keyboard. -/
def send_movie (score : Str → Str → Nat) (movie_titles : List Str)
    (text : Str) : MatchOutcome :=
  if movie_titles = [] then .dbEmpty
  else if extract score (searchQuery text) movie_titles 5 80 = [] then
    (if extract score (searchQuery text) movie_titles 5 60 = [] then .noMatch
     else .suggestions (extract score (searchQuery text) movie_titles 5 60))
  else if (extract score (searchQuery text) movie_titles 5 80).length = 1 ∧
      95 ≤ ((extract score (searchQuery text) movie_titles 5 80).headI).2 then
    .confident ((extract score (searchQuery text) movie_titles 5 80).headI).1
  else .ambiguous (extract score (searchQuery text) movie_titles 5 80)

/-- Candidate lists sorted by descending score. -/
def sortedDescBy (l : List MatchCandidate) : Prop :=
  List.Chain' (fun a b => b.2 ≤ a.2) l

lemma insertDesc_perm (p : MatchCandidate) : ∀ (l : List MatchCandidate),
    List.Perm (insertDesc p l) (p :: l)
  | [] => List.Perm.refl _
  | q :: qs => by
    unfold insertDesc
    split_ifs
    · exact ((insertDesc_perm p qs).cons q).trans (List.Perm.swap p q qs)
    · exact List.Perm.refl _

lemma sortDesc_perm : ∀ (l : List MatchCandidate), List.Perm (sortDesc l) l
  | [] => List.Perm.refl _
  | p :: ps =>
    (insertDesc_perm p (sortDesc ps)).trans ((sortDesc_perm ps).cons p)

lemma insertDesc_head (p : MatchCandidate) : ∀ (l : List MatchCandidate)
    (y : MatchCandidate), (insertDesc p l).head? = some y → y = p ∨ l.head? = some y
  | [] => by
    intro y hy
    simp only [insertDesc, List.head?_cons, Option.some_inj] at hy
    exact Or.inl hy.symm
  | q :: qs => by
    intro y hy
    unfold insertDesc at hy
    split_ifs at hy
    · simp only [List.head?_cons, Option.some_inj] at hy
      right
      rw [List.head?_cons, hy]
    · simp only [List.head?_cons, Option.some_inj] at hy
      exact Or.inl hy.symm

lemma insertDesc_sorted (p : MatchCandidate) : ∀ (l : List MatchCandidate),
    sortedDescBy l → sortedDescBy (insertDesc p l)
  | [] => fun _ => List.chain'_singleton p
  | q :: qs => by
    intro h
    have hqs : sortedDescBy qs := (List.chain'_cons'.mp h).2
    have hq : ∀ y ∈ qs.head?, y.2 ≤ q.2 := (List.chain'_cons'.mp h).1
    unfold insertDesc
    split_ifs with hpq
    · refine List.chain'_cons'.mpr ⟨?_, insertDesc_sorted p qs hqs⟩
      intro y hy
      rcases insertDesc_head p qs y (Option.mem_def.mp hy) with hyp | hhead
      · rw [hyp]
        omega
      · exact hq y (Option.mem_def.mpr hhead)
    · refine List.chain'_cons'.mpr ⟨?_, h⟩
      intro y hy
      have hyq : q = y := Option.some_inj.mp (Option.mem_def.mp hy)
      rw [← hyq]
      omega

lemma sortDesc_sorted : ∀ (l : List MatchCandidate), sortedDescBy (sortDesc l)
  | [] => List.chain'_nil
  | p :: ps => insertDesc_sorted p (sortDesc ps) (sortDesc_sorted ps)

lemma scored_filter_eq (score : Str → Str → Nat) (q : Str) (titles : List Str)
    (cutoff : Nat) :
    (titles.map (fun c => (c, score q c))).filter (fun p => decide (cutoff ≤ p.2)) =
      (clearedKeys score q titles cutoff).map (fun c => (c, score q c)) := by
  rw [List.filter_map]
  rfl

lemma extract_eq (score : Str → Str → Nat) (q : Str) (titles : List Str)
    (limit cutoff : Nat) :
    extract score q titles limit cutoff =
      (sortDesc ((clearedKeys score q titles cutoff).map
        (fun c => (c, score q c)))).take limit := by
  unfold extract
  rw [scored_filter_eq]

lemma extract_length (score : Str → Str → Nat) (q : Str) (titles : List Str)
    (limit cutoff : Nat) :
    (extract score q titles limit cutoff).length =
      min (clearedKeys score q titles cutoff).length limit := by
  rw [extract_eq, List.length_take, (sortDesc_perm _).length_eq, List.length_map,
    Nat.min_comm]

lemma extract_eq_nil_iff (score : Str → Str → Nat) (q : Str) (titles : List Str)
    (cutoff : Nat) :
    extract score q titles 5 cutoff = [] ↔ clearedKeys score q titles cutoff = [] := by
  rw [← List.length_eq_zero, ← List.length_eq_zero, extract_length]
  omega

lemma extract_singleton {score : Str → Str → Nat} {q : Str} {titles : List Str}
    {cutoff : Nat} {k : Str} (h : clearedKeys score q titles cutoff = [k]) :
    extract score q titles 5 cutoff = [(k, score q k)] := by
  rw [extract_eq, h]
  rfl

lemma extract_mem {score : Str → Str → Nat} {q : Str} {titles : List Str}
    {limit cutoff : Nat} {p : MatchCandidate}
    (hp : p ∈ extract score q titles limit cutoff) :
    cutoff ≤ p.2 ∧ p.1 ∈ titles ∧ p.2 = score q p.1 := by
  rw [extract_eq] at hp
  have h1 := (sortDesc_perm _).mem_iff.mp (List.mem_of_mem_take hp)
  rcases List.mem_map.mp h1 with ⟨c, hc, rfl⟩
  rcases List.mem_filter.mp hc with ⟨hmem, hcut⟩
  exact ⟨of_decide_eq_true hcut, hmem, rfl⟩

lemma extract_sorted (score : Str → Str → Nat) (q : Str) (titles : List Str)
    (limit cutoff : Nat) : sortedDescBy (extract score q titles limit cutoff) :=
  List.Chain'.prefix (sortDesc_sorted _) ( List.take_prefix _ _)

lemma extract_complete {score : Str → Str → Nat} {q : Str} {titles : List Str}
    {cutoff : Nat} (h : (clearedKeys score q titles cutoff).length ≤ 5) :
    ∀ m ∈ clearedKeys score q titles cutoff,
      (m, score q m) ∈ extract score q titles 5 cutoff := by
  intro m hm
  rw [extract_eq]
  have hlen : (sortDesc ((clearedKeys score q titles cutoff).map
      (fun c => (c, score q c)))).length ≤ 5 := by
    rw [(sortDesc_perm _).length_eq, List.length_map]
    exact h
  rw [List.take_of_length_le hlen]
  exact (sortDesc_perm _).mem_iff.mpr (List.mem_map_of_mem _ hm)

/-- C2: the matcher sends the poster directly (`Confident`) iff exactly
one catalog key cleared the lower threshold 80 and that key's score is at
least 95; in every other case where keys cleared 80, the suggestion
keyboard (`Ambiguous`) is produced (src/main.py lines 482-506). The second
condition is phrased on the cleared-key list exactly as the source phrases
it on `good_matches` (`len == 1 and score >= 95`), which coincide because
the cutoff-80 extract of a single-element cleared set is that element. -/
theorem send_movie_confident_iff (score : Str → Str → Nat)
    (movie_titles : List Str) (text : Str) (k : Str) :
    (send_movie score movie_titles text = .confident k ↔
      clearedKeys score (searchQuery text) movie_titles 80 = [k] ∧
        95 ≤ score (searchQuery text) k) ∧
    (clearedKeys score (searchQuery text) movie_titles 80 ≠ [] →
      ¬((clearedKeys score (searchQuery text) movie_titles 80).length = 1 ∧
        95 ≤ score (searchQuery text)
          (clearedKeys score (searchQuery text) movie_titles 80).headI) →
      send_movie score movie_titles text =
        .ambiguous (extract score (searchQuery text) movie_titles 5 80)) := by
  by_cases hnil : movie_titles = []
  · subst hnil
    refine ⟨⟨fun h => ?_, fun h => ?_⟩, fun hne _ => ?_⟩
    · exact absurd h (by simp [send_movie])
    · exact absurd h.1 (by simp [clearedKeys])
    · exact absurd (rfl : clearedKeys score (searchQuery text) [] 80 = []) hne
  · unfold send_movie
    rw [if_neg hnil]
    by_cases hex : extract score (searchQuery text) movie_titles 5 80 = []
    · rw [if_pos hex]
      have hcl : clearedKeys score (searchQuery text) movie_titles 80 = [] :=
        (extract_eq_nil_iff _ _ _ _).mp hex
      refine ⟨⟨fun h => ?_, fun h => ?_⟩, fun hne _ => absurd hcl hne⟩
      · split_ifs at h
      · rw [hcl] at h
        exact absurd h.1 (by simp)
    · rw [if_neg hex]
      have hclne : clearedKeys score (searchQuery text) movie_titles 80 ≠ [] :=
        fun h => hex ((extract_eq_nil_iff _ _ _ _).mpr h)
      by_cases hcond : (extract score (searchQuery text) movie_titles 5 80).length = 1 ∧
          95 ≤ ((extract score (searchQuery text) movie_titles 5 80).headI).2
      · rw [if_pos hcond]
        have hlen1 : (clearedKeys score (searchQuery text) movie_titles 80).length = 1 := by
          have := extract_length score (searchQuery text) movie_titles 5 80
          omega
        obtain ⟨k0, hk0⟩ := List.length_eq_one.mp hlen1
        have hext := extract_singleton hk0
        rw [hext] at hcond ⊢
        simp only [List.headI] at hcond ⊢
        refine ⟨⟨fun h => ?_, fun h => ?_⟩, fun _ hno => ?_⟩
        · have hk : k = k0 := (MatchOutcome.confident.inj h).symm
          rw [hk, hk0]
          exact ⟨rfl, hcond.2⟩
        · have hk : k0 = k := by
            rw [hk0] at h
            exact (List.cons.injEq _ _ _ _).mp h.1 |>.1
          rw [hk]
        · exfalso
          apply hno
          rw [hk0]
          simp only [List.length_singleton, List.headI]
          exact ⟨by simp, hcond.2⟩
      · rw [if_neg hcond]
        refine ⟨⟨fun h => ?_, fun h => ?_⟩, fun _ _ => rfl⟩
        · exact absurd h (by simp)
        · exfalso
          apply hcond
          have hext := extract_singleton h.1
          rw [hext]
          simp only [List.length_singleton, List.headI]
          exact ⟨by simp, h.2⟩

/-- Witness for C2: with a constant score of 90 and two catalog keys, the
80-cutoff set is nonempty and not a high-scoring singleton, so the
outcome is the `Ambiguous` suggestion keyboard. -/
theorem send_movie_confident_iff_witness :
    send_movie (fun _ _ => 90) [strOf "a", strOf "b"] (strOf "x") =
      .ambiguous (extract (fun _ _ => 90) (searchQuery (strOf "x"))
        [strOf "a", strOf "b"] 5 80) :=
  (send_movie_confident_iff (fun _ _ => 90) [strOf "a", strOf "b"] (strOf "x")
    (strOf "a")).2 (by decide) (by decide)

/-- C5: when no catalog key clears 80, the broader pass with cutoff 60 and
limit 5 is offered as `Suggestions` (sorted by descending score, at most 5
entries, all scoring at least 60); if that pass is also empty the outcome
is the terminal not-found message (src/main.py lines 484-495). -/
theorem send_movie_broad_pass (score : Str → Str → Nat)
    (movie_titles : List Str) (text : Str)
    (hne : movie_titles ≠ [])
    (h80 : clearedKeys score (searchQuery text) movie_titles 80 = []) :
    (clearedKeys score (searchQuery text) movie_titles 60 ≠ [] →
      send_movie score movie_titles text =
        .suggestions (extract score (searchQuery text) movie_titles 5 60) ∧
      (extract score (searchQuery text) movie_titles 5 60).length ≤ 5 ∧
      sortedDescBy (extract score (searchQuery text) movie_titles 5 60) ∧
      ∀ p ∈ extract score (searchQuery text) movie_titles 5 60,
        60 ≤ p.2 ∧ p.1 ∈ movie_titles ∧ p.2 = score (searchQuery text) p.1) ∧
    (clearedKeys score (searchQuery text) movie_titles 60 = [] →
      send_movie score movie_titles text = .noMatch) := by
  unfold send_movie
  rw [if_neg hne, if_pos ((extract_eq_nil_iff _ _ _ _).mpr h80)]
  constructor
  · intro h60
    rw [if_neg (fun h => h60 ((extract_eq_nil_iff _ _ _ _).mp h))]
    refine ⟨rfl, ?_, extract_sorted _ _ _ _ _, fun p hp => extract_mem hp⟩
    have := extract_length score (searchQuery text) movie_titles 5 60
    omega
  · intro h60
    rw [if_pos ((extract_eq_nil_iff _ _ _ _).mpr h60)]

/-- Witness for C5: with a constant score of 70 nothing clears 80, one key
clears 60, and the broader pass is offered. -/
theorem send_movie_broad_pass_witness :
    send_movie (fun _ _ => 70) [strOf "a"] (strOf "x") =
      .suggestions (extract (fun _ _ => 70) (searchQuery (strOf "x")) [strOf "a"] 5 60) :=
  ((send_movie_broad_pass (fun _ _ => 70) [strOf "a"] (strOf "x")
    (by decide) (by decide)).1 (by decide)).1

/-- Six distinct catalog keys, used to exhibit the rapidfuzz default
`limit=5` truncation of the cutoff-80 pass. -/
def sixKeys : List Str :=
  [strOf "a", strOf "b", strOf "c", strOf "d", strOf "e", strOf "f"]

/-- Counterexample to C6 as stated: with six keys all scoring 90 against
the query, all six clear the lower threshold 80, but the `Ambiguous`
candidate list holds only the first five — `process.extract` is called
without `limit` on the cutoff-80 pass and rapidfuzz's default limit is 5,
so the key "f" that cleared 80 is omitted. -/
theorem send_movie_full_set_counterexample :
    send_movie (fun _ _ => 90) sixKeys (strOf "x") =
      .ambiguous [(strOf "a", 90), (strOf "b", 90), (strOf "c", 90),
        (strOf "d", 90), (strOf "e", 90)] ∧
    strOf "f" ∈ clearedKeys (fun _ _ => 90) (searchQuery (strOf "x")) sixKeys 80 ∧
    (strOf "f", 90) ∉ [(strOf "a", 90), (strOf "b", 90), (strOf "c", 90),
      (strOf "d", 90), (strOf "e", 90)] := by
  decide

/-- C6 as amended: the `Ambiguous` candidate list is the cutoff-80 extract
— the keys that cleared 80, by descending score (ties in snapshot order),
truncated to rapidfuzz's default limit of 5; it is sorted, has at most 5
entries, every entry cleared 80, and no cleared key is omitted whenever at
most 5 keys cleared 80. -/
theorem send_movie_ambiguous_amended (score : Str → Str → Nat)
    (movie_titles : List Str) (text : Str) (cands : List MatchCandidate)
    (h : send_movie score movie_titles text = .ambiguous cands) :
    cands = extract score (searchQuery text) movie_titles 5 80 ∧
    sortedDescBy cands ∧
    cands.length ≤ 5 ∧
    (∀ p ∈ cands, 80 ≤ p.2 ∧ p.1 ∈ movie_titles ∧ p.2 = score (searchQuery text) p.1) ∧
    ((clearedKeys score (searchQuery text) movie_titles 80).length ≤ 5 →
      ∀ m ∈ clearedKeys score (searchQuery text) movie_titles 80,
        (m, score (searchQuery text) m) ∈ cands) := by
  have hc : cands = extract score (searchQuery text) movie_titles 5 80 := by
    unfold send_movie at h
    split_ifs at h
    all_goals exact (MatchOutcome.ambiguous.inj h).symm
  subst hc
  refine ⟨rfl, extract_sorted _ _ _ _ _, ?_, fun p hp => extract_mem hp,
    fun hle m hm => extract_complete hle m hm⟩
  have := extract_length score (searchQuery text) movie_titles 5 80
  omega

/-- Witness for the amended C6 at a concrete ambiguous outcome. -/
theorem send_movie_ambiguous_amended_witness :
    sortedDescBy [(strOf "a", 90), (strOf "b", 90)] :=
  (send_movie_ambiguous_amended (fun _ _ => 90) [strOf "a", strOf "b"] (strOf "x")
    [(strOf "a", 90), (strOf "b", 90)] (by decide)).2.1

/-- The allow-list of membership statuses checked by the delivery gate:
`['member', 'administrator', 'creator']` in both gate variants. Telegram
reports the chat owner with status string "creator". -/
def subscriptionAllowList : List Str :=
  [strOf "member", strOf "administrator", strOf "creator"]

/-- `is_user_subscribed` (src/.history/main_20251010102505.py lines
399-410): membership status in the designated channel is looked up with
`get_chat_member`; the status must be in the allow-list; the `except`
branch returns False (fail closed). The function only reads — it mutates
no state, which the embedding reflects by being a pure function of the
lookup result. -/
def is_user_subscribed (lookup : Except Unit Str) : Bool :=
  match lookup with
  | .ok status => decide (status ∈ subscriptionAllowList)
  | .error _ => false

/-- The `SubscriptionManager` static check (src/.history/main_20251014132434.py
lines 490-514): same allow-list, but its `except` branch returns True —
"graceful degradation", i.e. it fails OPEN on a lookup failure. -/
def subscription_manager_verify (lookup : Except Unit Str) : Bool :=
  match lookup with
  | .ok status => decide (status ∈ subscriptionAllowList)
  | .error _ => true

/-- Counterexample to C7 as stated: the allow-set in the code is
{"member", "administrator", "creator"}, not {"member", "administrator",
"owner"} — the status string "owner" is Ineligible — and the
`SubscriptionManager` variant returns Eligible when the membership lookup
itself fails (fail open), not Ineligible. -/
theorem delivery_gate_counterexample :
    is_user_subscribed (.ok (strOf "owner")) = false ∧
    subscription_manager_verify (.error ()) = true := by
  decide

/-- C7 as amended: both gate variants return Eligible on a successful
lookup exactly when the status is in {"member", "administrator",
"creator"}; on a lookup failure `is_user_subscribed` returns Ineligible
(fail closed) while `SubscriptionManager` returns Eligible (fail open);
both checks are pure and mutate no state. -/
theorem delivery_gate_amended (lookup : Except Unit Str) :
    (is_user_subscribed lookup = true ↔
      ∃ st, lookup = .ok st ∧ st ∈ subscriptionAllowList) ∧
    (subscription_manager_verify lookup = true ↔
      ∀ st, lookup = .ok st → st ∈ subscriptionAllowList) := by
  cases lookup with
  | error e =>
    constructor
    · simp [is_user_subscribed]
    · simp [subscription_manager_verify]
  | ok st =>
    constructor
    · simp [is_user_subscribed]
    · simp [subscription_manager_verify]

/-- A catalog row as selected from the remote store's `movies` table. -/
structure MovieRow where
  title : Str
  poster_url : Nat
  file_480p : Option Nat
  file_720p : Option Nat
  file_1080p : Option Nat
  deriving DecidableEq

/-- The in-memory value of one catalog entry: poster reference and the
three variant file references. -/
structure MovieEntry where
  poster_url : Nat
  file_480p : Option Nat
  file_720p : Option Nat
  file_1080p : Option Nat
  deriving DecidableEq

/-- The in-memory snapshot `movies_data`, a dict keyed by cleaned title. -/
abbrev MoviesDict := List (Str × MovieEntry)

/-- Python dict assignment `d[k] = v`: replaces in place if the key
exists (keeping its position), appends otherwise. -/
def dictInsert (k : Str) (v : MovieEntry) : MoviesDict → MoviesDict
  | [] => [(k, v)]
  | (k', v') :: rest =>
    if k' = k then (k, v) :: rest else (k', v') :: dictInsert k v rest

/-- Python `d.get(k)`. -/
def dictGet : MoviesDict → Str → Option MovieEntry
  | [], _ => none
  | (k, v) :: rest, key => if k = key then some v else dictGet rest key

/-- `load_movies_data` (src/main.py lines 82-102): builds the snapshot from
`supabase.table("movies").select("*")`. `response.data or []` turns a
missing row set into the empty dict, and the `except` branch returns the
empty dict as well. -/
def load_movies_data : Except Unit (Option (List MovieRow)) → MoviesDict
  | .error _ => []
  | .ok none => []
  | .ok (some rows) =>
    rows.foldl
      (fun acc movie =>
        dictInsert (clean_title movie.title)
          ⟨movie.poster_url, movie.file_480p, movie.file_720p, movie.file_1080p⟩ acc)
      []

/-- The reload preamble of `send_movie` (src/main.py lines 470-476): the
global `movies_data` is unconditionally replaced by the reload result, and
the emptiness check decides between the database-empty reply and the match
pipeline on the new snapshot's key list. The previous snapshot is an
argument only to exhibit that the result never depends on it. -/
def send_movie_step (score : Str → Str → Nat) (_prev : MoviesDict)
    (response : Except Unit (Option (List MovieRow))) (text : Str) :
    MoviesDict × MatchOutcome :=
  (load_movies_data response,
   send_movie score ((load_movies_data response).map Prod.fst) text)

/-- A sample catalog entry for concrete runs. -/
def demoEntry : MovieEntry := ⟨1, some 2, some 3, some 4⟩

/-- Counterexample to C8 as stated: with a nonempty snapshot in place, a
failed reload (store exception) does NOT leave the previous snapshot in
place — `load_movies_data` returns the empty dict from its `except`
branch and `send_movie` assigns it to the global, so the subsequent
search sees an empty key set and replies that the database is empty. -/
theorem reload_failure_counterexample :
    (send_movie_step (fun _ _ => 90) [(strOf "amaran (2024)", demoEntry)]
      (.error ()) (strOf "amaran")).1 = [] ∧
    [(strOf "amaran (2024)", demoEntry)] ≠ ([] : MoviesDict) ∧
    (send_movie_step (fun _ _ => 90) [(strOf "amaran (2024)", demoEntry)]
      (.error ()) (strOf "amaran")).2 = .dbEmpty := by
  decide

/-- C8 as amended: a failed reload (store exception, or a store reply with
no rows) replaces the in-memory snapshot with the empty dict regardless of
what was there before, and the search performed right after reports the
terminal database-empty outcome; nothing raises past the handler. -/
theorem reload_failure_amended (score : Str → Str → Nat) (prev : MoviesDict)
    (response : Except Unit (Option (List MovieRow))) (text : Str)
    (h : response = .error () ∨ response = .ok none) :
    send_movie_step score prev response text = ([], .dbEmpty) := by
  rcases h with rfl | rfl <;> rfl

/-- Witness for the amended C8 at a concrete failed reload. -/
theorem reload_failure_amended_witness :
    send_movie_step (fun _ _ => 90) [(strOf "amaran (2024)", demoEntry)]
      (.error ()) (strOf "x") = ([], .dbEmpty) :=
  reload_failure_amended (fun _ _ => 90) [(strOf "amaran (2024)", demoEntry)]
    (.error ()) (strOf "x") (Or.inl rfl)

/-- The pending upload session `user_files[user_id]`: an optional poster
file reference and the collected movie files as (file_id, file_name). -/
structure UploadSession where
  poster : Option Nat
  movies : List (Nat × Str)
  deriving DecidableEq

/-- An incoming message handled by `save_file` (the handler is registered
for photos and documents only). -/
inductive UploadMsg where
  | photo (file_id : Nat)
  | document (file_id : Nat) (file_name : Str)
  deriving DecidableEq

/-- The observable events of one `save_file` invocation. `movieSaved` /
`dbSaveFailed` mark the call of `save_movie_to_db` and its boolean result
(the entry-creation attempt itself, not the reply about it; the title
text of that reply, derived via `extract_title` and `clean_title` from
the first file name, is not needed by any claim). `raisedToDispatcher`
marks an awaited reply raising, which aborts the handler — the exception
propagates to the application's error handler. -/
inductive SaveReply where
  | promptAddmovie
  | posterReceived
  | alreadyThreeFiles
  | movieReceived (n : Nat)
  | movieSaved
  | dbSaveFailed
  | raisedToDispatcher
  deriving DecidableEq

/-- The fresh session created by `/addmovie` (src/main.py lines 399-403)
and re-stored after a save attempt: no poster, no movie files. -/
def addmovie_session : UploadSession := ⟨none, []⟩

/-- `save_file` (src/main.py lines 406-462) for one photo or document,
with its fallible awaited calls explicit. `dbOk` is whether
`save_movie_to_db` succeeds (a synchronous call that catches its own
exceptions and returns a boolean). `ackOk` is whether the awaited
acknowledgment `message.reply_text` at line 438 succeeds: it sits between
the third variant's append (line 433) and the all-files-received check
(line 445) with no try/except, so its raising aborts the handler with the
variant already appended and the check never reached. `savedReplyOk` is
whether the awaited save-outcome reply (line 458 or 460) succeeds: it
sits between the `save_movie_to_db` call (line 454) and the session reset
(line 462), so its raising leaves the session holding poster + 3 variants
although the entry-creation attempt already happened. The other awaited
replies (lines 413, 420, 427) come after every state change of their
branch, so their failure leaves the session in the same state as success
and they are not parameterized. -/
def save_file (session : Option UploadSession) (msg : UploadMsg)
    (dbOk ackOk savedReplyOk : Bool) : Option UploadSession × List SaveReply :=
  match session with
  | none => (none, [.promptAddmovie])
  | some s =>
    match msg with
    | .photo fid => (some ⟨some fid, s.movies⟩, [.posterReceived])
    | .document fid name =>
      if 3 ≤ s.movies.length then (some s, [.alreadyThreeFiles])
      else
        if ackOk then
          if s.poster.isSome ∧ (s.movies ++ [(fid, name)]).length = 3 then
            if savedReplyOk then
              (some addmovie_session,
               [.movieReceived (s.movies ++ [(fid, name)]).length,
                if dbOk then .movieSaved else .dbSaveFailed])
            else
              (some ⟨s.poster, s.movies ++ [(fid, name)]⟩,
               [.movieReceived (s.movies ++ [(fid, name)]).length,
                (if dbOk then .movieSaved else .dbSaveFailed), .raisedToDispatcher])
          else
            (some ⟨s.poster, s.movies ++ [(fid, name)]⟩,
             [.movieReceived (s.movies ++ [(fid, name)]).length])
        else
          (some ⟨s.poster, s.movies ++ [(fid, name)]⟩, [.raisedToDispatcher])

/-- A sequence of incoming messages folded through `save_file`,
accumulating the events, with every fallible call succeeding as the flags
say. -/
def run_save_files (session : Option UploadSession) (msgs : List UploadMsg)
    (dbOk ackOk savedReplyOk : Bool) : Option UploadSession × List SaveReply :=
  msgs.foldl
    (fun st m =>
      ((save_file st.1 m dbOk ackOk savedReplyOk).1,
       st.2 ++ (save_file st.1 m dbOk ackOk savedReplyOk).2))
    (session, [])

/-- Counterexample to C9 as stated: after `/addmovie`, sending the three
variant documents FIRST and the poster LAST — with every transport call
and the store insert succeeding — leaves the session holding a poster and
exactly 3 variants, yet no catalog entry is created and the session is
not cleared: the photo branch of `save_file` returns before the
all-files-received check, so the claimed order-independence fails. -/
theorem upload_session_order_counterexample :
    (run_save_files (some addmovie_session)
      [.document 11 (strOf "a.mkv"), .document 12 (strOf "b.mkv"),
       .document 13 (strOf "c.mkv"), .photo 99] true true true).1 =
      some ⟨some 99, [(11, strOf "a.mkv"), (12, strOf "b.mkv"), (13, strOf "c.mkv")]⟩ ∧
    SaveReply.movieSaved ∉
      (run_save_files (some addmovie_session)
        [.document 11 (strOf "a.mkv"), .document 12 (strOf "b.mkv"),
         .document 13 (strOf "c.mkv"), .photo 99] true true true).2 := by
  decide

/-- C9 as amended: the session never holds more than 3 variant files.
When the third variant document arrives while the poster is already
present and the acknowledgment reply succeeds, the catalog-entry creation
is attempted exactly once in that step and the session is cleared if the
save-outcome reply also succeeds; if that reply raises, the attempt still
happened exactly once but the session is left holding poster + 3
variants. If the acknowledgment reply raises, the handler aborts before
the all-files-received check: the session keeps poster + 3 variants and
no entry-creation is attempted. A poster arrival never consumes the
session (it only stores the poster and returns), so poster-last orders do
not trigger the save. -/
theorem upload_session_amended :
    (∀ (s : UploadSession) (msg : UploadMsg) (dbOk ackOk savedReplyOk : Bool)
      (s' : UploadSession),
      s.movies.length ≤ 3 →
      (save_file (some s) msg dbOk ackOk savedReplyOk).1 = some s' →
      s'.movies.length ≤ 3) ∧
    (∀ (pid fid : Nat) (name : Str) (ms : List (Nat × Str)) (dbOk savedReplyOk : Bool),
      ms.length = 2 →
      save_file (some ⟨some pid, ms⟩) (.document fid name) dbOk true savedReplyOk =
        (if savedReplyOk then
          (some addmovie_session,
           [.movieReceived 3, if dbOk then .movieSaved else .dbSaveFailed])
         else
          (some ⟨some pid, ms ++ [(fid, name)]⟩,
           [.movieReceived 3, (if dbOk then .movieSaved else .dbSaveFailed),
            .raisedToDispatcher])) ∧
      ((save_file (some ⟨some pid, ms⟩) (.document fid name) dbOk true savedReplyOk).2.count
        (if dbOk then SaveReply.movieSaved else .dbSaveFailed)) = 1) ∧
    (∀ (pid fid : Nat) (name : Str) (ms : List (Nat × Str)) (dbOk savedReplyOk : Bool),
      ms.length = 2 →
      save_file (some ⟨some pid, ms⟩) (.document fid name) dbOk false savedReplyOk =
        (some ⟨some pid, ms ++ [(fid, name)]⟩, [.raisedToDispatcher])) ∧
    (∀ (s : UploadSession) (fid : Nat) (dbOk ackOk savedReplyOk : Bool),
      save_file (some s) (.photo fid) dbOk ackOk savedReplyOk =
        (some ⟨some fid, s.movies⟩, [.posterReceived])) := by
  refine ⟨?_, ?_, ?_, fun s fid dbOk ackOk savedReplyOk => rfl⟩
  · intro s msg dbOk ackOk savedReplyOk s' hlen h
    cases msg with
    | photo fid =>
      simp only [save_file, Option.some_inj] at h
      rw [← h]
      exact hlen
    | document fid name =>
      unfold save_file at h
      simp only [] at h
      by_cases h3 : 3 ≤ s.movies.length
      · rw [if_pos h3] at h
        simp only [Option.some_inj] at h
        rw [← h]
        exact hlen
      · rw [if_neg h3] at h
        cases hack : ackOk with
        | false =>
          rw [hack, if_neg (by simp)] at h
          simp only [Option.some_inj] at h
          rw [← h]
          simp only [List.length_append, List.length_singleton]
          omega
        | true =>
          rw [hack, if_pos rfl] at h
          by_cases hfull : s.poster.isSome ∧ (s.movies ++ [(fid, name)]).length = 3
          · rw [if_pos hfull] at h
            cases hrep : savedReplyOk with
            | true =>
              rw [hrep, if_pos rfl] at h
              simp only [Option.some_inj] at h
              rw [← h]
              simp [addmovie_session]
            | false =>
              rw [hrep, if_neg (by simp)] at h
              simp only [Option.some_inj] at h
              rw [← h]
              simp only [List.length_append, List.length_singleton]
              omega
          · rw [if_neg hfull] at h
            simp only [Option.some_inj] at h
            rw [← h]
            simp only [List.length_append, List.length_singleton]
            omega
  · intro pid fid name ms dbOk savedReplyOk hms
    unfold save_file
    simp only []
    rw [if_neg (by omega)]
    simp only [if_true]
    rw [if_pos (by refine ⟨rfl, ?_⟩; simp [hms])]
    have hlen3 : (ms ++ [(fid, name)]).length = 3 := by
      simp [hms]
    rw [hlen3]
    cases savedReplyOk <;> cases dbOk <;> exact ⟨rfl, by simp [List.count_cons]⟩
  · intro pid fid name ms dbOk savedReplyOk hms
    unfold save_file
    simp only []
    rw [if_neg (by omega)]
    rw [if_neg (by simp)]

/-- Witness for the amended C9: a third document arriving with the poster
already present, with the acknowledgment and save-outcome replies
succeeding, consumes and clears the session with exactly one
entry-creation attempt. -/
theorem upload_session_amended_witness :
    save_file (some ⟨some 7, [(1, strOf "a"), (2, strOf "b")]⟩)
        (.document 3 (strOf "c")) true true true =
      (if true then
        (some addmovie_session,
         [SaveReply.movieReceived 3, if true then SaveReply.movieSaved
          else SaveReply.dbSaveFailed])
       else
        (some ⟨some 7, [(1, strOf "a"), (2, strOf "b")] ++ [(3, strOf "c")]⟩,
         [SaveReply.movieReceived 3,
          (if true then SaveReply.movieSaved else SaveReply.dbSaveFailed),
          SaveReply.raisedToDispatcher])) :=
  (upload_session_amended.2.1 7 3 (strOf "c") [(1, strOf "a"), (2, strOf "b")]
    true true (by decide)).1

/-- The fixed self-destruct delay: `await asyncio.sleep(600)` in
`delete_after_delay` (src/main.py line 170). -/
def DELETE_DELAY : Nat := 600

/-- What `delete_after_delay`'s body logs after the sleep. -/
inductive DeleteLog where
  | deletedInfo
  | warnLogged
  deriving DecidableEq

/-- `delete_after_delay` (src/main.py lines 168-175): sleep the fixed
delay, then attempt `bot.delete_message` inside try/except. The result is
the slept delay paired with the outcome of the whole coroutine: the
deletion attempt's failure is caught and turned into a warning log, so
the coroutine itself never ends in the error case of the `Except`. -/
def delete_after_delay (delete_result : Except Unit Unit) :
    Nat × Except Unit DeleteLog :=
  (DELETE_DELAY,
   match delete_result with
   | .ok _ => .ok .deletedInfo
   | .error _ => .ok .warnLogged)

/-- One scheduled self-destruct task,
`asyncio.create_task(delete_after_delay(context, chat_id, message_id))`. -/
structure ScheduledDeletion where
  chat_id : Nat
  message_id : Nat
  deriving DecidableEq

/-- The user-visible outcome of `send_movie_poster`. -/
inductive PosterOutcome where
  | notFound
  | sendError
  | posterSent (key : Str)
  deriving DecidableEq

/-- `send_movie_poster` (src/main.py lines 178-223): look the key up in
the snapshot; on a successful `reply_photo` (whose message id is the `ok`
payload of `send_result`) schedule exactly one deletion for the sent
poster message; a raising send is caught and reported, with nothing
scheduled. -/
def send_movie_poster (movies : MoviesDict) (movie_name_key : Str)
    (chat_id : Nat) (send_result : Except Unit Nat) :
    PosterOutcome × List ScheduledDeletion :=
  match dictGet movies movie_name_key with
  | none => (.notFound, [])
  | some _ =>
    match send_result with
    | .error _ => (.sendError, [])
    | .ok message_id => (.posterSent movie_name_key, [⟨chat_id, message_id⟩])

/-- `movie['files'].get(res)`: the three fixed variant labels. -/
def entryFile (e : MovieEntry) (res : Str) : Option Nat :=
  if res = strOf "480p" then e.file_480p
  else if res = strOf "720p" then e.file_720p
  else if res = strOf "1080p" then e.file_1080p
  else none

/-- The user-visible outcome of the deep-link branch of `start`.
`fileSentConfirmFailed` records that the document WAS delivered but the
handler then raised at the confirmation message, reaching the `except`
branch. -/
inductive StartOutcome where
  | decodeFailed
  | invalidPayload
  | fileUnavailable
  | sendFailed
  | fileSent (key res : Str)
  | fileSentConfirmFailed (key res : Str)
  deriving DecidableEq

/-- The deep-link branch of `start` (src/main.py lines 321-371): decode
the token (failures reach the `except` branch at line 372), bounded-split
on the first pipe (a payload without a pipe is reported as invalid), look
up the movie and the requested variant file, and send the document
(`send_document` at line 348, whose `ok` payload is the sent message id).
Between the delivery and the deletion scheduling (`create_task` at line
359) the source awaits a second fallible transport call, the confirmation
`send_message` at line 355, with no inner try/except: `confirm_result` is
its outcome. Only when it also succeeds is the deletion scheduled; if it
raises, the outer `except` catches it and the already delivered document
gets no deletion scheduled. Earlier awaited sends (the welcome message at
line 334) can only fail before the document is delivered, so they do not
affect which delivered messages get a deletion and are not parameterized. -/
def start_deeplink (movies : MoviesDict) (token : List Nat) (user_id : Nat)
    (send_result : Except Unit Nat) (confirm_result : Except Unit Unit) :
    StartOutcome × List ScheduledDeletion :=
  match b64Decode token with
  | none => (.decodeFailed, [])
  | some bytes =>
    match utf8Decode bytes with
    | none => (.decodeFailed, [])
    | some payload =>
      match splitOncePipe payload with
      | none => (.invalidPayload, [])
      | some (movie_name_key, res) =>
        match dictGet movies movie_name_key with
        | none => (.fileUnavailable, [])
        | some movie =>
          match entryFile movie res with
          | none => (.fileUnavailable, [])
          | some _ =>
            match send_result with
            | .error _ => (.sendFailed, [])
            | .ok message_id =>
              match confirm_result with
              | .error _ => (.fileSentConfirmFailed movie_name_key res, [])
              | .ok _ => (.fileSent movie_name_key res, [⟨user_id, message_id⟩])

/-- Counterexample to C10 as stated: on a valid deep link for catalog key
"k" and variant "480p", the document is delivered (`send_document`
succeeds with message id 5), but the awaited confirmation `send_message`
at line 355 raises before the `create_task` at line 359 — the outer
`except` at line 372 catches it and NO deletion is ever scheduled for the
delivered document, refuting "for every delivered artifact message a
self-destruct deletion is scheduled". -/
theorem deeplink_no_deletion_counterexample :
    (start_deeplink [(strOf "k", demoEntry)]
        (encodeHandoff (strOf "k") (strOf "480p")) 7 (.ok 5) (.error ())).1 =
      .fileSentConfirmFailed (strOf "k") (strOf "480p") ∧
    (start_deeplink [(strOf "k", demoEntry)]
        (encodeHandoff (strOf "k") (strOf "480p")) 7 (.ok 5) (.error ())).2 = [] := by
  decide

/-- C10 as amended: the deletion task sleeps the fixed 600 time units and
never lets a failing deletion attempt escape (it is caught and logged
only). Every delivered poster message has exactly one deletion scheduled
for it. A delivered deep-link document has exactly one deletion scheduled
when the follow-up confirmation message also succeeds; if the
confirmation send raises, the already delivered document gets no deletion
scheduled (the handler aborts to its `except` branch between delivery and
scheduling). -/
theorem ephemeral_deletion_props :
    (∀ r : Except Unit Unit,
      (delete_after_delay r).1 = 600 ∧ ∃ lg, (delete_after_delay r).2 = .ok lg) ∧
    (∀ (movies : MoviesDict) (key k' : Str) (chat : Nat) (sres : Except Unit Nat),
      (send_movie_poster movies key chat sres).1 = .posterSent k' →
      ∃ mid, sres = .ok mid ∧
        (send_movie_poster movies key chat sres).2 = [⟨chat, mid⟩]) ∧
    (∀ (movies : MoviesDict) (token : List Nat) (uid : Nat)
      (sres : Except Unit Nat) (cres : Except Unit Unit) (k r : Str),
      ((start_deeplink movies token uid sres cres).1 = .fileSent k r →
        ∃ mid, sres = .ok mid ∧ cres = .ok () ∧
          (start_deeplink movies token uid sres cres).2 = [⟨uid, mid⟩]) ∧
      ((start_deeplink movies token uid sres cres).1 = .fileSentConfirmFailed k r →
        (∃ mid, sres = .ok mid) ∧ cres = .error () ∧
          (start_deeplink movies token uid sres cres).2 = [])) := by
  refine ⟨?_, ?_, ?_⟩
  · intro r
    cases r with
    | ok u => exact ⟨rfl, .deletedInfo, rfl⟩
    | error e => exact ⟨rfl, .warnLogged, rfl⟩
  · intro movies key k' chat sres h
    unfold send_movie_poster at h ⊢
    cases hd : dictGet movies key with
    | none =>
      rw [hd] at h
      simp at h
    | some entry =>
      rw [hd] at h
      simp only [] at h ⊢
      cases sres with
      | error e => simp at h
      | ok mid => exact ⟨mid, rfl, by simp⟩
  · intro movies token uid sres cres k r
    unfold start_deeplink
    cases hb : b64Decode token with
    | none => exact ⟨fun h => by simp at h, fun h => by simp at h⟩
    | some bytes =>
      simp only []
      cases hu : utf8Decode bytes with
      | none => exact ⟨fun h => by simp at h, fun h => by simp at h⟩
      | some payload =>
        simp only []
        cases hs : splitOncePipe payload with
        | none => exact ⟨fun h => by simp at h, fun h => by simp at h⟩
        | some kv =>
          obtain ⟨k1, r1⟩ := kv
          simp only []
          cases hd : dictGet movies k1 with
          | none => exact ⟨fun h => by simp at h, fun h => by simp at h⟩
          | some movie =>
            simp only []
            cases he : entryFile movie r1 with
            | none => exact ⟨fun h => by simp at h, fun h => by simp at h⟩
            | some fid =>
              simp only []
              cases sres with
              | error e => exact ⟨fun h => by simp at h, fun h => by simp at h⟩
              | ok mid =>
                cases cres with
                | ok u =>
                  refine ⟨fun h => ⟨mid, rfl, rfl, by simp⟩, fun h => ?_⟩
                  simp at h
                | error e =>
                  refine ⟨fun h => by simp at h, fun h => ⟨⟨mid, rfl⟩, rfl, by simp⟩⟩

/-- Witness for the amended C10: a delivered poster message (message id 5
in chat 77) has exactly the one deletion ⟨77, 5⟩ scheduled. -/
theorem ephemeral_deletion_props_witness :
    ∃ mid, (Except.ok 5 : Except Unit Nat) = .ok mid ∧
      (send_movie_poster [(strOf "k", demoEntry)] (strOf "k") 77 (.ok 5)).2 =
        [⟨77, mid⟩] :=
  ephemeral_deletion_props.2.1 [(strOf "k", demoEntry)] (strOf "k") (strOf "k") 77
    (.ok 5) (by decide)

end TamilMoviesBot

